import Mathlib

/-!
# Verification of the Meta Agent Search (ADAS) core

Shallow embedding of `src/meta-agent-search.ts`: the `AgentDesign` data
model, the `ArchiveManager` operations (`load`, `save`, `add`,
`updateFitness`, `getAll`, `getEnabled`, `getTopPerforming`) and the
`MetaAgentSearch` driver (`runGeneration`, `evaluateAgent`, `runSearch`).

Numbers: all accuracy / mean arithmetic in the source is plain field
arithmetic on JS numbers, which the specification describes as an exact
incremental running average; we model those quantities in `ℚ` so that the
arithmetic is exact and decidable.  The confidence bounds use `Math.sqrt`,
which we model with `Real.sqrt` on `ℝ`.

Effects: the file system is modelled explicitly.  `load` takes a
`LoadInput` describing what reading + parsing the persisted document
produced; mutating operations return a `Bool` flag recording whether the
archive was persisted (`save` called) before returning.  Oracle (LLM) and
evaluator calls are suspension points whose outcomes are inputs to the
model: a failed call is `none` / a failure record.
-/

namespace MetaAgentSearch

/-- `generation` field: either the sentinel `"initial"` or a numeric
generation index. -/
inductive Generation where
  | initial
  | gen (n : ℕ)
deriving DecidableEq, Repr

/-- `AgentDesign` record (`src/meta-agent-search.ts`, lines 20–34).
`fitness.accuracy` is the running mean; bounds live in `ℝ` because they
are produced by `Math.sqrt`. -/
structure Fitness where
  accuracy : ℚ
  confidenceLow : ℝ
  confidenceHigh : ℝ
  evaluationCount : ℕ

structure AgentDesign where
  id : String
  name : String
  thought : String
  code : String
  generation : Generation
  fitness : Fitness
  createdAt : String
  enabled : Bool

/-- `EvaluationResult` record (lines 36–41). -/
structure EvaluationResult where
  success : Bool
  accuracy : ℚ
  errors : List String
  duration : ℚ

/-- `SearchConfig` record (lines 43–48). -/
structure SearchConfig where
  maxGenerations : ℕ
  evaluationsPerAgent : ℕ
  reflexionSteps : ℕ
  minFitnessThreshold : ℚ

/-- The `Omit<AgentDesign, "id" | "createdAt" | "enabled">` shape taken by
`ArchiveManager.add` and used for the entries of `INITIAL_ARCHIVE`. -/
structure Candidate where
  name : String
  thought : String
  code : String
  generation : Generation
  fitness : Fitness

/-- First baseline entry of `INITIAL_ARCHIVE` (lines 53–67). -/
noncomputable def chainOfThought : Candidate where
  name := "Chain-of-Thought"
  thought := "Break down complex problems into step-by-step reasoning before answering."
  code := "
async function forward(task, context) \x7b
  const instruction = \"Please think step by step and then solve the task.\";
  const response = await context.llm.complete(\x7b
    prompt: instruction + \"\\n\\nTask: \" + task.description,
    outputFields: [\"thinking\", \"answer\"]
  \x7d);
  return response.answer;
\x7d"
  generation := Generation.initial
  fitness := ⟨0.5, (0.4 : ℝ), (0.6 : ℝ), 0⟩

/-- Second baseline entry of `INITIAL_ARCHIVE` (lines 68–95). -/
noncomputable def selfConsistency : Candidate where
  name := "Self-Consistency"
  thought := "Generate multiple reasoning paths and take majority vote for robustness."
  code := "
async function forward(task, context) \x7b
  const instruction = \"Think step by step and solve the task.\";
  const responses = [];

  // Generate 3 different reasoning paths
  for (let i = 0; i < 3; i++) \x7b
    const response = await context.llm.complete(\x7b
      prompt: instruction + \"\\n\\nTask: \" + task.description,
      outputFields: [\"answer\"],
      temperature: 0.8
    \x7d);
    responses.push(response.answer);
  \x7d

  // Return most common answer
  const counts = \x7b\x7d;
  for (const r of responses) \x7b
    counts[r] = (counts[r] || 0) + 1;
  \x7d
  return Object.entries(counts).sort((a, b) => b[1] - a[1])[0][0];
\x7d"
  generation := Generation.initial
  fitness := ⟨0.55, (0.45 : ℝ), (0.65 : ℝ), 0⟩

/-- Third baseline entry of `INITIAL_ARCHIVE` (lines 96–119). -/
noncomputable def reflexionBaseline : Candidate where
  name := "Reflexion"
  thought := "Iteratively refine answer through self-critique and improvement."
  code := "
async function forward(task, context) \x7b
  // Initial attempt
  let response = await context.llm.complete(\x7b
    prompt: \"Solve this task: \" + task.description,
    outputFields: [\"answer\"]
  \x7d);

  // Self-critique
  const critique = await context.llm.complete(\x7b
    prompt: \"Review this answer and identify any errors or improvements:\\n\" +
            \"Task: \" + task.description + \"\\n\" +
            \"Answer: \" + response.answer,
    outputFields: [\"critique\", \"improved_answer\"]
  \x7d);

  return critique.improved_answer || response.answer;
\x7d"
  generation := Generation.initial
  fitness := ⟨0.58, (0.48 : ℝ), (0.68 : ℝ), 0⟩

/-- Fourth baseline entry of `INITIAL_ARCHIVE` (lines 120–150). -/
noncomputable def toolAugmented : Candidate where
  name := "Tool-Augmented"
  thought := "Use external tools when appropriate to enhance reasoning."
  code := "
async function forward(task, context) \x7b
  // Analyze if tools are needed
  const analysis = await context.llm.complete(\x7b
    prompt: \"Analyze this task. Do you need external tools (search, calculate, code)?\\n\" +
            \"Task: \" + task.description,
    outputFields: [\"needs_tools\", \"tool_type\", \"reasoning\"]
  \x7d);

  if (analysis.needs_tools && context.tools[analysis.tool_type]) \x7b
    const toolResult = await context.tools[analysis.tool_type](task);
    return await context.llm.complete(\x7b
      prompt: \"Using this tool result, answer the task:\\n\" +
              \"Task: \" + task.description + \"\\n\" +
              \"Tool result: \" + toolResult,
      outputFields: [\"answer\"]
    \x7d).then(r => r.answer);
  \x7d

  // Fallback to direct answer
  return await context.llm.complete(\x7b
    prompt: \"Solve: \" + task.description,
    outputFields: [\"answer\"]
  \x7d).then(r => r.answer);
\x7d"
  generation := Generation.initial
  fitness := ⟨0.52, (0.42 : ℝ), (0.62 : ℝ), 0⟩

/-- `INITIAL_ARCHIVE` (lines 52–151): the four baseline candidates, in
source order. -/
noncomputable def INITIAL_ARCHIVE : List Candidate :=
  [chainOfThought, selfConsistency, reflexionBaseline, toolAugmented]

/-- `ArchiveManager.initializeWithBaseline` (lines 234–242): seed the
archive from `INITIAL_ARCHIVE` with ids `baseline-i`, the current
timestamp `now` and `enabled := true`.  (The `save()` it performs is
reflected by the `Bool` flag in `load` below.) -/
noncomputable def baselineArchive (now : String) : List AgentDesign :=
  INITIAL_ARCHIVE.enum.map fun p =>
    { id := "baseline-" ++ toString p.1
      name := p.2.name
      thought := p.2.thought
      code := p.2.code
      generation := p.2.generation
      fitness := p.2.fitness
      createdAt := now
      enabled := true }

/-- Outcome of reading and JSON-parsing the persisted archive document:
the file is absent, the file exists but `JSON.parse` throws, or the parse
succeeds — in which case `data?.agents` is an array decoding to a list of
designs (`some l`) or is not an array (`none`). -/
inductive LoadInput where
  | absent
  | corrupt
  | parsed (agents : Option (List AgentDesign))

/-- `ArchiveManager.load` (lines 221–232).  Returns the in-memory archive
together with a flag recording whether the baseline was seeded and
persisted (`initializeWithBaseline` calls `save`). -/
noncomputable def load (input : LoadInput) (now : String) :
    List AgentDesign × Bool :=
  match input with
  | LoadInput.absent => (baselineArchive now, true)
  | LoadInput.corrupt => (baselineArchive now, true)
  | LoadInput.parsed none => ([], false)
  | LoadInput.parsed (some l) => (l, false)

/-- The document written by `ArchiveManager.save` (lines 244–250):
`{ agents: this.archive }`. -/
structure Doc where
  agents : List AgentDesign

/-- `save` serialises the archive as `{ agents }` (line 249). -/
def saveDoc (archive : List AgentDesign) : Doc := ⟨archive⟩

/-- Reading back a document that `save` wrote: `JSON.parse` of
`JSON.stringify({agents})` succeeds and `agents` is an array, so `load`
sees `parsed (some …)`.  (JSON round-tripping itself belongs to the
external storage collaborator.) -/
def parseSaved (d : Doc) : LoadInput := LoadInput.parsed (some d.agents)

/-- `ArchiveManager.add` (lines 252–262): build the full design with id
`gen-<generation>-<Date.now()>`, the current timestamp and
`enabled:true`, push it, save, and return it.  Result: the stored design,
the new archive, and the persisted flag. -/
def genToString : Generation → String
  | Generation.initial => "initial"
  | Generation.gen n => toString n

def add (archive : List AgentDesign) (agent : Candidate)
    (nowMs : ℕ) (nowIso : String) :
    AgentDesign × List AgentDesign × Bool :=
  let full : AgentDesign :=
    { id := "gen-" ++ genToString agent.generation ++ "-" ++ toString nowMs
      name := agent.name
      thought := agent.thought
      code := agent.code
      generation := agent.generation
      fitness := agent.fitness
      createdAt := nowIso
      enabled := true }
  (full, archive ++ [full], true)

/-- `ArchiveManager.getAll` (lines 264–266). -/
def getAll (archive : List AgentDesign) : List AgentDesign := archive

/-- `ArchiveManager.getEnabled` (lines 268–270). -/
def getEnabled (archive : List AgentDesign) : List AgentDesign :=
  archive.filter fun a => a.enabled

/-- `this.archive.find(a => a.id === id)` — first design with the given
id, as used by `updateFitness` and `evaluateAgent`. -/
def findAgent (archive : List AgentDesign) (id : String) :
    Option AgentDesign :=
  archive.find? fun a => a.id = id

/-- The per-design fitness update performed by
`ArchiveManager.updateFitness` (lines 282–297) on the design it found:
incremental running average, binomial-proportion confidence bounds
clamped to `[0,1]`, and the retirement rule. -/
noncomputable def updateAgentFitness (a : AgentDesign) (acc : ℚ) :
    AgentDesign :=
  let oldCount : ℕ := a.fitness.evaluationCount
  let newCount : ℕ := oldCount + 1
  let newAccuracy : ℚ := (a.fitness.accuracy * oldCount + acc) / newCount
  let variance : ℝ := (newAccuracy : ℝ) * (1 - (newAccuracy : ℝ)) / (newCount : ℝ)
  let stdErr : ℝ := Real.sqrt variance
  let newLow : ℝ := max 0 ((newAccuracy : ℝ) - 1.96 * stdErr)
  let newHigh : ℝ := min 1 ((newAccuracy : ℝ) + 1.96 * stdErr)
  let newEnabled : Bool :=
    if 5 ≤ newCount ∧ newAccuracy < 0.3 then false else a.enabled
  { a with
      fitness := ⟨newAccuracy, newLow, newHigh, newCount⟩
      enabled := newEnabled }

/-- `ArchiveManager.updateFitness` (lines 278–300): find the first design
with the given id; if absent return without saving; otherwise update that
design in place and save.  The `Bool` is the persisted flag. -/
noncomputable def updateFitness (archive : List AgentDesign) (id : String)
    (acc : ℚ) : List AgentDesign × Bool :=
  match archive with
  | [] => ([], false)
  | a :: rest =>
    if a.id = id then (updateAgentFitness a acc :: rest, true)
    else
      let r := updateFitness rest id acc
      (a :: r.1, r.2)

/-- Repeated design-level fitness updates, one per observed accuracy. -/
noncomputable def applyAgentUpdates (a : AgentDesign) (accs : List ℚ) :
    AgentDesign :=
  accs.foldl updateAgentFitness a

/-- Repeated `updateFitness` calls on one id. -/
noncomputable def applyUpdates (archive : List AgentDesign) (id : String)
    (accs : List ℚ) : List AgentDesign :=
  accs.foldl (fun ar acc => (updateFitness ar id acc).1) archive

/-- The structured `{name, thought, code}` shape the oracle returns from
`completeJson` in `runGeneration`. -/
structure Proposal where
  name : String
  thought : String
  code : String

/-- The external outcomes one `runGeneration` call consumes: the initial
`completeJson` result (`none` = the call threw), the result of the
`completeJson` call in refinement round `i`, and the values of
`Date.now()` / `new Date().toISOString()` when `add` runs. -/
structure GenInput where
  initial : Option Proposal
  refine : ℕ → Option Proposal
  nowMs : ℕ
  nowIso : String

/-- In-memory state of a `MetaAgentSearch` instance: the generation
counter and the archive. -/
structure SearchState where
  generation : ℕ
  archive : List AgentDesign

/-- The reflexion loop of `runGeneration` (lines 361–372): `steps`
rounds; a round whose oracle call succeeds replaces the design, a round
whose call throws keeps it. -/
def refineFold (p : Proposal) (steps : ℕ) (refine : ℕ → Option Proposal) :
    Proposal :=
  (List.range steps).foldl (fun d i => (refine i).getD d) p

/-- `MetaAgentSearch.runGeneration` (lines 341–386): increment the
generation counter; if the initial oracle call fails return `null`
without touching the archive; otherwise refine for
`config.reflexionSteps` rounds and `add` the result with zeroed fitness. -/
noncomputable def runGeneration (cfg : SearchConfig) (st : SearchState)
    (inp : GenInput) : SearchState × Option AgentDesign :=
  let g := st.generation + 1
  match inp.initial with
  | none => ({ st with generation := g }, none)
  | some p =>
    let final := refineFold p cfg.reflexionSteps inp.refine
    let r := add st.archive
      ⟨final.name, final.thought, final.code, Generation.gen g, ⟨0, 0, 0, 0⟩⟩
      inp.nowMs inp.nowIso
    ({ generation := g, archive := r.2.1 }, some r.1)

/-- `MetaAgentSearch.evaluateAgent` (lines 388–402): look the design up;
if absent return a failure result without touching the archive;
otherwise feed the external evaluator's result (`res`, an input to the
model) into `updateFitness`. -/
noncomputable def evaluateAgent (st : SearchState) (agentId : String)
    (res : EvaluationResult) : SearchState × EvaluationResult :=
  match findAgent st.archive agentId with
  | none => (st, ⟨false, 0, ["Agent not found"], 0⟩)
  | some _ =>
    ({ st with archive := (updateFitness st.archive agentId res.accuracy).1 },
     res)

/-- External outcomes one `runSearch` call consumes: per loop iteration
`i`, the generation's oracle outcomes and the evaluator's result. -/
structure SearchInputs where
  gen : ℕ → GenInput
  evalRes : ℕ → EvaluationResult

/-- One iteration of the `runSearch` loop (lines 407–420). -/
noncomputable def runSearchStep (cfg : SearchConfig) (inputs : SearchInputs)
    (acc : SearchState × List AgentDesign) (i : ℕ) :
    SearchState × List AgentDesign :=
  let r := runGeneration cfg acc.1 (inputs.gen i)
  match r.2 with
  | none => (r.1, acc.2)
  | some agent =>
    let e := evaluateAgent r.1 agent.id (inputs.evalRes i)
    if cfg.minFitnessThreshold ≤ e.2.accuracy then (e.1, acc.2 ++ [agent])
    else (e.1, acc.2)

/-- `MetaAgentSearch.runSearch` (lines 404–423): `maxGenerations`
iterations of generate → evaluate → threshold test; returns the final
state and the discovered list. -/
noncomputable def runSearch (cfg : SearchConfig) (st : SearchState)
    (inputs : SearchInputs) : SearchState × List AgentDesign :=
  (List.range cfg.maxGenerations).foldl (runSearchStep cfg inputs) (st, [])

/-- The archive-mutating operations `ArchiveManager` exposes, with their
external inputs (times, observed accuracy) attached. -/
inductive Op where
  | addOp (c : Candidate) (nowMs : ℕ) (nowIso : String)
  | updateOp (id : String) (acc : ℚ)

/-- Effect of one archive operation on the archive. -/
noncomputable def applyOp (archive : List AgentDesign) : Op → List AgentDesign
  | Op.addOp c ms iso => (add archive c ms iso).2.1
  | Op.updateOp id acc => (updateFitness archive id acc).1

/-- Effect of a sequence of archive operations. -/
noncomputable def applyOps (archive : List AgentDesign) (ops : List Op) :
    List AgentDesign :=
  ops.foldl applyOp archive

/-- A concrete design used as a test fixture: fresh fitness, enabled. -/
noncomputable def testAgent : AgentDesign where
  id := "t1"
  name := "Test"
  thought := "A test design."
  code := "async function forward(task, context) \x7b return 42; \x7d"
  generation := Generation.gen 1
  fitness := ⟨0.5, 0, 0, 0⟩
  createdAt := "2026-01-01T00:00:00.000Z"
  enabled := true

/-- A concrete retired design: `enabled := false`. -/
noncomputable def testRetired : AgentDesign where
  id := "r1"
  name := "Retired"
  thought := "A retired test design."
  code := "async function forward(task, context) \x7b return 0; \x7d"
  generation := Generation.gen 2
  fitness := ⟨0.2, 0, 0, 6⟩
  createdAt := "2026-01-01T00:00:00.000Z"
  enabled := false

/-! ### Helper lemmas -/

theorem updateAgentFitness_id (a : AgentDesign) (acc : ℚ) :
    (updateAgentFitness a acc).id = a.id := rfl

theorem updateAgentFitness_count (a : AgentDesign) (acc : ℚ) :
    (updateAgentFitness a acc).fitness.evaluationCount =
      a.fitness.evaluationCount + 1 := rfl

theorem updateAgentFitness_accuracy (a : AgentDesign) (acc : ℚ) :
    (updateAgentFitness a acc).fitness.accuracy =
      (a.fitness.accuracy * a.fitness.evaluationCount + acc) /
        (a.fitness.evaluationCount + 1) := by
  simp only [updateAgentFitness]
  push_cast
  ring_nf

theorem updateAgentFitness_low (a : AgentDesign) (acc : ℚ) :
    (updateAgentFitness a acc).fitness.confidenceLow =
      max 0 (((updateAgentFitness a acc).fitness.accuracy : ℝ) -
        1.96 * Real.sqrt (((updateAgentFitness a acc).fitness.accuracy : ℝ) *
          (1 - ((updateAgentFitness a acc).fitness.accuracy : ℝ)) /
          ((updateAgentFitness a acc).fitness.evaluationCount : ℝ))) := rfl

theorem updateAgentFitness_high (a : AgentDesign) (acc : ℚ) :
    (updateAgentFitness a acc).fitness.confidenceHigh =
      min 1 (((updateAgentFitness a acc).fitness.accuracy : ℝ) +
        1.96 * Real.sqrt (((updateAgentFitness a acc).fitness.accuracy : ℝ) *
          (1 - ((updateAgentFitness a acc).fitness.accuracy : ℝ)) /
          ((updateAgentFitness a acc).fitness.evaluationCount : ℝ))) := rfl

theorem updateAgentFitness_enabled (a : AgentDesign) (acc : ℚ) :
    (updateAgentFitness a acc).enabled =
      if 5 ≤ a.fitness.evaluationCount + 1 ∧
          (updateAgentFitness a acc).fitness.accuracy < 0.3
        then false else a.enabled := rfl

/-- Retirement never re-enables: a `false` flag survives any update. -/
theorem updateAgentFitness_enabled_mono (a : AgentDesign) (acc : ℚ)
    (h : a.enabled = false) : (updateAgentFitness a acc).enabled = false := by
  rw [updateAgentFitness_enabled, h]
  split <;> rfl

/-- `updateFitness` on a present id: the first matching design is
replaced by its update, later designs are untouched, and the archive is
persisted. -/
theorem findAgent_updateFitness (archive : List AgentDesign) (id : String)
    (acc : ℚ) (d : AgentDesign) (h : findAgent archive id = some d) :
    findAgent (updateFitness archive id acc).1 id =
        some (updateAgentFitness d acc) ∧
      (updateFitness archive id acc).2 = true := by
  induction archive with
  | nil => simp [findAgent] at h
  | cons a rest ih =>
    by_cases ha : a.id = id
    · have hd : d = a := by
        simp [findAgent, List.find?_cons, ha] at h
        exact h.symm
      subst hd
      constructor
      · simp [updateFitness, ha, findAgent, List.find?_cons,
          updateAgentFitness_id]
      · simp [updateFitness, ha]
    · have h' : findAgent rest id = some d := by
        simpa [findAgent, List.find?_cons, ha] using h
      have := ih h'
      constructor
      · simp [updateFitness, ha, findAgent, List.find?_cons]
        simpa [findAgent] using this.1
      · simp [updateFitness, ha]
        exact this.2

theorem applyAgentUpdates_cons (a : AgentDesign) (x : ℚ) (xs : List ℚ) :
    applyAgentUpdates a (x :: xs) =
      applyAgentUpdates (updateAgentFitness a x) xs := rfl

theorem applyAgentUpdates_count (a : AgentDesign) (accs : List ℚ) :
    (applyAgentUpdates a accs).fitness.evaluationCount =
      a.fitness.evaluationCount + accs.length := by
  induction accs generalizing a with
  | nil => simp [applyAgentUpdates]
  | cons x xs ih =>
    rw [applyAgentUpdates_cons, ih, updateAgentFitness_count]
    simp
    omega

/-- The running total `mean * count` accumulates the observations. -/
theorem applyAgentUpdates_total (a : AgentDesign) (accs : List ℚ) :
    (applyAgentUpdates a accs).fitness.accuracy *
        ((applyAgentUpdates a accs).fitness.evaluationCount : ℚ) =
      a.fitness.accuracy * (a.fitness.evaluationCount : ℚ) + accs.sum := by
  induction accs generalizing a with
  | nil => simp [applyAgentUpdates]
  | cons x xs ih =>
    rw [applyAgentUpdates_cons, ih, updateAgentFitness_accuracy,
      updateAgentFitness_count]
    have hne : ((a.fitness.evaluationCount : ℚ) + 1) ≠ 0 := by positivity
    push_cast
    field_simp
    ring

/-- After a non-empty run of updates the mean is the exact weighted
average of the starting total and the observations. -/
theorem applyAgentUpdates_accuracy (a : AgentDesign) (accs : List ℚ)
    (h : accs ≠ []) :
    (applyAgentUpdates a accs).fitness.accuracy =
      (a.fitness.accuracy * (a.fitness.evaluationCount : ℚ) + accs.sum) /
        ((a.fitness.evaluationCount : ℚ) + accs.length) := by
  have ht := applyAgentUpdates_total a accs
  have hc := applyAgentUpdates_count a accs
  rw [hc] at ht
  have hlen : 0 < accs.length := List.length_pos.mpr h
  have hden : ((a.fitness.evaluationCount : ℚ) + accs.length) ≠ 0 := by
    have : (0 : ℚ) < accs.length := by exact_mod_cast hlen
    positivity
  rw [eq_div_iff hden, ← ht]
  push_cast
  ring

/-- `findAgent` commutes with a run of `updateFitness` calls on the same
id. -/
theorem findAgent_applyUpdates (archive : List AgentDesign) (id : String)
    (accs : List ℚ) (d : AgentDesign) (h : findAgent archive id = some d) :
    findAgent (applyUpdates archive id accs) id =
      some (applyAgentUpdates d accs) := by
  induction accs generalizing archive d with
  | nil => simpa [applyUpdates, applyAgentUpdates] using h
  | cons x xs ih =>
    have h1 : applyUpdates archive id (x :: xs) =
        applyUpdates (updateFitness archive id x).1 id xs := rfl
    rw [h1, applyAgentUpdates_cons]
    exact ih _ _ (findAgent_updateFitness archive id x d h).1

/-- Appending (as `add` does) never changes what `findAgent` returns for
an id that is already present. -/
theorem findAgent_append (archive : List AgentDesign) (id : String)
    (x d : AgentDesign) (h : findAgent archive id = some d) :
    findAgent (archive ++ [x]) id = some d := by
  induction archive with
  | nil => simp [findAgent] at h
  | cons a rest ih =>
    by_cases ha : a.id = id
    · have hd : d = a := by
        simp [findAgent, List.find?_cons, ha] at h
        exact h.symm
      subst hd
      simp [findAgent, List.find?_cons, ha]
    · have h' : findAgent rest id = some d := by
        simpa [findAgent, List.find?_cons, ha] using h
      have := ih h'
      simpa [findAgent, List.find?_cons, ha] using this

theorem findAgent_cons_self {a : AgentDesign} {id : String} (h : a.id = id)
    (l : List AgentDesign) : findAgent (a :: l) id = some a := by
  simp [findAgent, List.find?_cons, h]

theorem findAgent_cons_ne {a : AgentDesign} {id : String} (h : ¬a.id = id)
    (l : List AgentDesign) : findAgent (a :: l) id = findAgent l id := by
  simp [findAgent, List.find?_cons, h]

theorem updateFitness_cons_pos {a : AgentDesign} {id : String}
    (h : a.id = id) (rest : List AgentDesign) (acc : ℚ) :
    updateFitness (a :: rest) id acc =
      (updateAgentFitness a acc :: rest, true) := by
  simp [updateFitness, h]

theorem updateFitness_cons_neg {a : AgentDesign} {id : String}
    (h : ¬a.id = id) (rest : List AgentDesign) (acc : ℚ) :
    updateFitness (a :: rest) id acc =
      (a :: (updateFitness rest id acc).1, (updateFitness rest id acc).2) := by
  simp [updateFitness, h]

/-- A retired design stays retired across any single `updateFitness`
call, on its own id or any other. -/
theorem findAgent_updateFitness_retired (archive : List AgentDesign)
    (id id' : String) (acc : ℚ) (d : AgentDesign)
    (h : findAgent archive id = some d) (hd : d.enabled = false) :
    ∃ e, findAgent (updateFitness archive id' acc).1 id = some e ∧
      e.enabled = false := by
  induction archive generalizing d with
  | nil => simp [findAgent] at h
  | cons a rest ih =>
    by_cases h2 : a.id = id
    · have hd2 : d = a := by
        rw [findAgent_cons_self h2] at h
        exact (Option.some.injEq _ _ ▸ h).symm
      rw [hd2] at hd
      by_cases h1 : a.id = id'
      · refine ⟨updateAgentFitness a acc, ?_,
          updateAgentFitness_enabled_mono a acc hd⟩
        rw [updateFitness_cons_pos h1]
        exact findAgent_cons_self (by rw [updateAgentFitness_id]; exact h2) _
      · refine ⟨a, ?_, hd⟩
        rw [updateFitness_cons_neg h1]
        exact findAgent_cons_self h2 _
    · have h' : findAgent rest id = some d := by
        rw [findAgent_cons_ne h2] at h
        exact h
      by_cases h1 : a.id = id'
      · refine ⟨d, ?_, hd⟩
        rw [updateFitness_cons_pos h1]
        rw [findAgent_cons_ne (by rw [updateAgentFitness_id]; exact h2) _]
        exact h'
      · obtain ⟨e, he, hee⟩ := ih d h' hd
        refine ⟨e, ?_, hee⟩
        rw [updateFitness_cons_neg h1]
        rw [findAgent_cons_ne h2]
        exact he

/-- A retired design stays retired across any single archive operation. -/
theorem findAgent_applyOp_retired (archive : List AgentDesign) (op : Op)
    (id : String) (d : AgentDesign) (h : findAgent archive id = some d)
    (hd : d.enabled = false) :
    ∃ e, findAgent (applyOp archive op) id = some e ∧ e.enabled = false := by
  cases op with
  | addOp c ms iso =>
    exact ⟨d, findAgent_append archive id _ d h, hd⟩
  | updateOp id' acc =>
    exact findAgent_updateFitness_retired archive id id' acc d h hd

/-- A retired design stays retired across any sequence of archive
operations. -/
theorem findAgent_applyOps_retired (archive : List AgentDesign)
    (ops : List Op) (id : String) (d : AgentDesign)
    (h : findAgent archive id = some d) (hd : d.enabled = false) :
    ∃ e, findAgent (applyOps archive ops) id = some e ∧
      e.enabled = false := by
  induction ops generalizing archive d with
  | nil => exact ⟨d, h, hd⟩
  | cons op ops ih =>
    obtain ⟨e, he, hee⟩ := findAgent_applyOp_retired archive op id d h hd
    exact ih (applyOp archive op) e he hee

/-- With observations in `[0,1]` and a fresh design, the running mean
stays in `[0,1]`. -/
theorem applyAgentUpdates_accuracy_unit (a : AgentDesign) (accs : List ℚ)
    (h0 : a.fitness.evaluationCount = 0)
    (hmem : ∀ x ∈ accs, 0 ≤ x ∧ x ≤ 1) (hne : accs ≠ []) :
    0 ≤ (applyAgentUpdates a accs).fitness.accuracy ∧
      (applyAgentUpdates a accs).fitness.accuracy ≤ 1 := by
  rw [applyAgentUpdates_accuracy a accs hne, h0]
  have hlen : 0 < accs.length := List.length_pos.mpr hne
  have hlenq : (0 : ℚ) < accs.length := by exact_mod_cast hlen
  have hsum0 : 0 ≤ accs.sum := List.sum_nonneg fun x hx => (hmem x hx).1
  have hsum1 : accs.sum ≤ accs.length := by
    have := List.sum_le_card_nsmul accs 1 fun x hx => (hmem x hx).2
    simpa using this
  constructor
  · apply div_nonneg
    · simpa using hsum0
    · positivity
  · rw [div_le_one (by simpa using hlenq)]
    simpa using hsum1

/-- The confidence-bound chain for the output of one fitness update whose
new mean lies in `[0,1]`. -/
theorem updateAgentFitness_bounds_chain (b : AgentDesign) (y : ℚ)
    (h0 : 0 ≤ (updateAgentFitness b y).fitness.accuracy)
    (h1 : (updateAgentFitness b y).fitness.accuracy ≤ 1) :
    0 ≤ (updateAgentFitness b y).fitness.confidenceLow ∧
      (updateAgentFitness b y).fitness.confidenceLow ≤
        ((updateAgentFitness b y).fitness.accuracy : ℝ) ∧
      ((updateAgentFitness b y).fitness.accuracy : ℝ) ≤
        (updateAgentFitness b y).fitness.confidenceHigh ∧
      (updateAgentFitness b y).fitness.confidenceHigh ≤ 1 := by
  rw [updateAgentFitness_low, updateAgentFitness_high]
  have hm0 : (0 : ℝ) ≤ ((updateAgentFitness b y).fitness.accuracy : ℝ) := by
    exact_mod_cast h0
  have hm1 : ((updateAgentFitness b y).fitness.accuracy : ℝ) ≤ 1 := by
    exact_mod_cast h1
  have hs : 0 ≤ Real.sqrt (((updateAgentFitness b y).fitness.accuracy : ℝ) *
      (1 - ((updateAgentFitness b y).fitness.accuracy : ℝ)) /
      ((updateAgentFitness b y).fitness.evaluationCount : ℝ)) :=
    Real.sqrt_nonneg _
  have hps : 0 ≤ 1.96 * Real.sqrt
      (((updateAgentFitness b y).fitness.accuracy : ℝ) *
        (1 - ((updateAgentFitness b y).fitness.accuracy : ℝ)) /
        ((updateAgentFitness b y).fitness.evaluationCount : ℝ)) := by
    have : (0 : ℝ) ≤ 1.96 := by norm_num
    exact mul_nonneg this hs
  refine ⟨le_max_left _ _, ?_, ?_, min_le_left _ _⟩
  · exact max_le hm0 (by linarith)
  · exact le_min hm1 (by linarith)

/-- A non-empty run of updates ends in one update applied to the state
left by the earlier ones. -/
theorem applyAgentUpdates_concat (a : AgentDesign) (as : List ℚ) (x : ℚ) :
    applyAgentUpdates a (as.concat x) =
      updateAgentFitness (applyAgentUpdates a as) x := by
  simp [applyAgentUpdates, List.concat_eq_append, List.foldl_append]

/-- The full confidence-bound invariant after any non-empty run of
fitness updates with observations in `[0,1]`. -/
theorem applyAgentUpdates_bounds_chain (a : AgentDesign) (accs : List ℚ)
    (h0 : a.fitness.evaluationCount = 0)
    (hmem : ∀ x ∈ accs, 0 ≤ x ∧ x ≤ 1) (hne : accs ≠ []) :
    0 ≤ (applyAgentUpdates a accs).fitness.confidenceLow ∧
      (applyAgentUpdates a accs).fitness.confidenceLow ≤
        ((applyAgentUpdates a accs).fitness.accuracy : ℝ) ∧
      ((applyAgentUpdates a accs).fitness.accuracy : ℝ) ≤
        (applyAgentUpdates a accs).fitness.confidenceHigh ∧
      (applyAgentUpdates a accs).fitness.confidenceHigh ≤ 1 := by
  obtain ⟨as, x, rfl⟩ := (List.eq_nil_or_concat accs).resolve_left hne
  have hacc := applyAgentUpdates_accuracy_unit a (as.concat x) h0 hmem
    (by simp [List.concat_eq_append])
  rw [applyAgentUpdates_concat] at hacc ⊢
  exact updateAgentFitness_bounds_chain _ x hacc.1 hacc.2

/-- The bounds are always the clamped `mean ∓ 1.96·stdErr` recomputed
from the final mean and count. -/
theorem applyAgentUpdates_bounds_formula (a : AgentDesign) (accs : List ℚ)
    (hne : accs ≠ []) :
    (applyAgentUpdates a accs).fitness.confidenceLow =
        max 0 (((applyAgentUpdates a accs).fitness.accuracy : ℝ) -
          1.96 * Real.sqrt (((applyAgentUpdates a accs).fitness.accuracy : ℝ) *
            (1 - ((applyAgentUpdates a accs).fitness.accuracy : ℝ)) /
            ((applyAgentUpdates a accs).fitness.evaluationCount : ℝ))) ∧
      (applyAgentUpdates a accs).fitness.confidenceHigh =
        min 1 (((applyAgentUpdates a accs).fitness.accuracy : ℝ) +
          1.96 * Real.sqrt (((applyAgentUpdates a accs).fitness.accuracy : ℝ) *
            (1 - ((applyAgentUpdates a accs).fitness.accuracy : ℝ)) /
            ((applyAgentUpdates a accs).fitness.evaluationCount : ℝ))) := by
  obtain ⟨as, x, rfl⟩ := (List.eq_nil_or_concat accs).resolve_left hne
  rw [applyAgentUpdates_concat]
  exact ⟨updateAgentFitness_low _ x, updateAgentFitness_high _ x⟩

/-- A fold that keeps the accumulator on `none` ignores the failed
entries entirely. -/
theorem foldl_getD_filterMap (l : List ℕ) (p : Proposal)
    (refine : ℕ → Option Proposal) :
    l.foldl (fun d i => (refine i).getD d) p =
      (l.filterMap refine).foldl (fun _ r => r) p := by
  induction l generalizing p with
  | nil => rfl
  | cons i is ih =>
    cases h : refine i with
    | none => simp [List.foldl_cons, List.filterMap_cons, h, ih]
    | some q => simp [List.foldl_cons, List.filterMap_cons, h, ih]

/-- The reflexion loop's outcome is determined by the successful rounds
alone: each success replaces the design, failures are skipped. -/
theorem refineFold_filterMap (p : Proposal) (steps : ℕ)
    (refine : ℕ → Option Proposal) :
    refineFold p steps refine =
      ((List.range steps).filterMap refine).foldl (fun _ r => r) p :=
  foldl_getD_filterMap _ p refine

/-- The design a successful generation stores: the (possibly refined)
proposal, tagged with the new generation index, zeroed fitness, the
`add`-constructed id and timestamp, and `enabled:true`. -/
noncomputable def generatedAgent (cfg : SearchConfig) (st : SearchState)
    (inp : GenInput) (p : Proposal) : AgentDesign :=
  { id := "gen-" ++ genToString (Generation.gen (st.generation + 1)) ++
      "-" ++ toString inp.nowMs
    name := (refineFold p cfg.reflexionSteps inp.refine).name
    thought := (refineFold p cfg.reflexionSteps inp.refine).thought
    code := (refineFold p cfg.reflexionSteps inp.refine).code
    generation := Generation.gen (st.generation + 1)
    fitness := ⟨0, 0, 0, 0⟩
    createdAt := inp.nowIso
    enabled := true }

theorem runGeneration_none (cfg : SearchConfig) (st : SearchState)
    (inp : GenInput) (h : inp.initial = none) :
    runGeneration cfg st inp =
      ({ st with generation := st.generation + 1 }, none) := by
  simp [runGeneration, h]

theorem runGeneration_some (cfg : SearchConfig) (st : SearchState)
    (inp : GenInput) (p : Proposal) (h : inp.initial = some p) :
    runGeneration cfg st inp =
      (⟨st.generation + 1, st.archive ++ [generatedAgent cfg st inp p]⟩,
        some (generatedAgent cfg st inp p)) := by
  simp [runGeneration, h, add, generatedAgent]

/-- The design just appended by `add` is always found by `findAgent`
(possibly as an earlier design sharing its id). -/
theorem findAgent_append_self (archive : List AgentDesign)
    (x : AgentDesign) : ∃ e, findAgent (archive ++ [x]) x.id = some e := by
  have hs : (List.find? (fun a => decide (a.id = x.id))
      (archive ++ [x])).isSome := by
    rw [List.find?_isSome]
    exact ⟨x, by simp, by simp⟩
  obtain ⟨e, he⟩ := Option.isSome_iff_exists.mp hs
  exact ⟨e, he⟩

theorem evaluateAgent_found (st : SearchState) (agentId : String)
    (res : EvaluationResult) (e : AgentDesign)
    (h : findAgent st.archive agentId = some e) :
    evaluateAgent st agentId res =
      ({ st with
          archive := (updateFitness st.archive agentId res.accuracy).1 },
        res) := by
  simp [evaluateAgent, h]

theorem runSearchStep_none (cfg : SearchConfig) (inputs : SearchInputs)
    (st : SearchState) (ds : List AgentDesign) (i : ℕ)
    (h : (inputs.gen i).initial = none) :
    runSearchStep cfg inputs (st, ds) i =
      ({ st with generation := st.generation + 1 }, ds) := by
  simp [runSearchStep, runGeneration_none cfg st _ h]

theorem runSearchStep_some (cfg : SearchConfig) (inputs : SearchInputs)
    (st : SearchState) (ds : List AgentDesign) (i : ℕ) (p : Proposal)
    (h : (inputs.gen i).initial = some p) :
    runSearchStep cfg inputs (st, ds) i =
      (⟨st.generation + 1,
          (updateFitness (st.archive ++ [generatedAgent cfg st (inputs.gen i) p])
            (generatedAgent cfg st (inputs.gen i) p).id
            (inputs.evalRes i).accuracy).1⟩,
        if cfg.minFitnessThreshold ≤ (inputs.evalRes i).accuracy
          then ds ++ [generatedAgent cfg st (inputs.gen i) p] else ds) := by
  obtain ⟨e, he⟩ := findAgent_append_self st.archive
    (generatedAgent cfg st (inputs.gen i) p)
  have hfound : findAgent
      (SearchState.mk (st.generation + 1)
        (st.archive ++ [generatedAgent cfg st (inputs.gen i) p])).archive
      (generatedAgent cfg st (inputs.gen i) p).id = some e := he
  simp only [runSearchStep, runGeneration_some cfg st _ p h]
  rw [evaluateAgent_found _ _ _ e hfound]
  split_ifs with hc <;> simp_all

/-- Every loop iteration advances the generation counter by exactly one,
whether or not the oracle call succeeded. -/
theorem runSearchStep_generation (cfg : SearchConfig) (inputs : SearchInputs)
    (acc : SearchState × List AgentDesign) (i : ℕ) :
    ((runSearchStep cfg inputs acc i).1).generation =
      acc.1.generation + 1 := by
  obtain ⟨st, ds⟩ := acc
  cases h : (inputs.gen i).initial with
  | none => rw [runSearchStep_none cfg inputs st ds i h]
  | some p => rw [runSearchStep_some cfg inputs st ds i p h]

theorem runSearch_foldl_generation (cfg : SearchConfig)
    (inputs : SearchInputs) (l : List ℕ) (st : SearchState)
    (ds : List AgentDesign) :
    ((l.foldl (runSearchStep cfg inputs) (st, ds)).1).generation =
      st.generation + l.length := by
  induction l generalizing st ds with
  | nil => simp
  | cons i is ih =>
    rw [List.foldl_cons]
    have hstep := runSearchStep_generation cfg inputs (st, ds) i
    have := ih (runSearchStep cfg inputs (st, ds) i).1
      (runSearchStep cfg inputs (st, ds) i).2
    rw [Prod.mk.eta] at this
    rw [this, hstep, List.length_cons]
    show st.generation + 1 + is.length = st.generation + (is.length + 1)
    omega

theorem runSearch_foldl_allfail (cfg : SearchConfig)
    (inputs : SearchInputs) (l : List ℕ) (st : SearchState)
    (ds : List AgentDesign)
    (h : ∀ i ∈ l, (inputs.gen i).initial = none) :
    l.foldl (runSearchStep cfg inputs) (st, ds) =
      ({ st with generation := st.generation + l.length }, ds) := by
  induction l generalizing st with
  | nil => simp
  | cons i is ih =>
    rw [List.foldl_cons, runSearchStep_none cfg inputs st ds i
      (h i (by simp))]
    rw [ih _ fun j hj => h j (by simp [hj])]
    simp
    omega

/-! ### Claim theorems -/

/-- C1: for every design whose fitness starts at `evaluationCount 0` and
every sequence of successful `updateFitness` calls on its id supplying
accuracies `a1..ak` (k ≥ 1), afterwards `fitness.evaluationCount = k`
and `fitness.accuracy` equals the exact arithmetic mean
`(a1+...+ak)/k`, accumulated by the incremental rule
`newMean = (oldMean*oldCount + observedAccuracy)/(oldCount+1)`. -/
theorem updateFitness_running_mean (archive : List AgentDesign)
    (id : String) (d : AgentDesign) (accs : List ℚ)
    (hfind : findAgent archive id = some d)
    (hcount : d.fitness.evaluationCount = 0) (hne : accs ≠ []) :
    ∃ d', findAgent (applyUpdates archive id accs) id = some d' ∧
      d'.fitness.evaluationCount = accs.length ∧
      d'.fitness.accuracy = accs.sum / (accs.length : ℚ) := by
  refine ⟨applyAgentUpdates d accs,
    findAgent_applyUpdates archive id accs d hfind, ?_, ?_⟩
  · rw [applyAgentUpdates_count, hcount, Nat.zero_add]
  · rw [applyAgentUpdates_accuracy d accs hne, hcount]
    push_cast
    ring_nf

theorem updateFitness_running_mean_witness :
    findAgent [testAgent] "t1" = some testAgent ∧
      testAgent.fitness.evaluationCount = 0 ∧
      (∃ d', findAgent (applyUpdates [testAgent] "t1" [(1 : ℚ)]) "t1" =
          some d' ∧
        d'.fitness.evaluationCount = [(1 : ℚ)].length ∧
        d'.fitness.accuracy = [(1 : ℚ)].sum / (([(1 : ℚ)].length : ℕ) : ℚ)) :=
  ⟨rfl, rfl,
    updateFitness_running_mean [testAgent] "t1" testAgent [1] rfl rfl
      (by simp)⟩

/-- C2: an `updateFitness` call that brings `evaluationCount` to at
least 5 with mean below 0.3 retires the design (`enabled := false`), and
once a design is retired no archive operation — `add` or any later
`updateFitness` with any accuracy — ever re-enables it. -/
theorem retirement_monotone (archive : List AgentDesign) (id : String)
    (d : AgentDesign) (acc : ℚ) (ops : List Op)
    (hfind : findAgent archive id = some d) :
    (5 ≤ (updateAgentFitness d acc).fitness.evaluationCount →
      (updateAgentFitness d acc).fitness.accuracy < 0.3 →
      findAgent (updateFitness archive id acc).1 id =
          some (updateAgentFitness d acc) ∧
        (updateAgentFitness d acc).enabled = false) ∧
    (d.enabled = false →
      ∃ e, findAgent (applyOps archive ops) id = some e ∧
        e.enabled = false) := by
  constructor
  · intro h5 hlt
    refine ⟨(findAgent_updateFitness archive id acc d hfind).1, ?_⟩
    rw [updateAgentFitness_enabled, if_pos]
    exact ⟨by simpa [updateAgentFitness_count] using h5, hlt⟩
  · intro hd
    exact findAgent_applyOps_retired archive ops id d hfind hd

theorem retirement_monotone_witness :
    (findAgent [testRetired] "r1" = some testRetired ∧
      5 ≤ (updateAgentFitness testRetired 0).fitness.evaluationCount ∧
      (updateAgentFitness testRetired 0).fitness.accuracy < 0.3 ∧
      testRetired.enabled = false) ∧
    (findAgent (updateFitness [testRetired] "r1" 0).1 "r1" =
        some (updateAgentFitness testRetired 0) ∧
      (updateAgentFitness testRetired 0).enabled = false) ∧
    (∃ e, findAgent (applyOps [testRetired] [Op.updateOp "r1" 1]) "r1" =
        some e ∧ e.enabled = false) := by
  have h5 : 5 ≤ (updateAgentFitness testRetired 0).fitness.evaluationCount := by
    rw [updateAgentFitness_count]
    norm_num [testRetired]
  have hlt : (updateAgentFitness testRetired 0).fitness.accuracy < 0.3 := by
    rw [updateAgentFitness_accuracy]
    norm_num [testRetired]
  have hmain := retirement_monotone [testRetired] "r1" testRetired 0
    [Op.updateOp "r1" 1] rfl
  exact ⟨⟨rfl, h5, hlt, rfl⟩, hmain.1 h5 hlt, hmain.2 rfl⟩

/-- C10: `updateFitness` never inspects the `enabled` flag: for any
design found in the archive — the claim's interest being a retired one —
the call still increments the count, recomputes mean and both confidence
bounds by the same formulas, and persists the archive. -/
theorem updateFitness_ignores_retirement (archive : List AgentDesign)
    (id : String) (d : AgentDesign) (acc : ℚ)
    (hfind : findAgent archive id = some d) :
    findAgent (updateFitness archive id acc).1 id =
        some (updateAgentFitness d acc) ∧
      (updateFitness archive id acc).2 = true ∧
      (updateAgentFitness d acc).fitness.evaluationCount =
        d.fitness.evaluationCount + 1 ∧
      (updateAgentFitness d acc).fitness.accuracy =
        (d.fitness.accuracy * d.fitness.evaluationCount + acc) /
          (d.fitness.evaluationCount + 1) ∧
      (updateAgentFitness d acc).fitness.confidenceLow =
        max 0 (((updateAgentFitness d acc).fitness.accuracy : ℝ) -
          1.96 * Real.sqrt (((updateAgentFitness d acc).fitness.accuracy : ℝ) *
            (1 - ((updateAgentFitness d acc).fitness.accuracy : ℝ)) /
            ((updateAgentFitness d acc).fitness.evaluationCount : ℝ))) ∧
      (updateAgentFitness d acc).fitness.confidenceHigh =
        min 1 (((updateAgentFitness d acc).fitness.accuracy : ℝ) +
          1.96 * Real.sqrt (((updateAgentFitness d acc).fitness.accuracy : ℝ) *
            (1 - ((updateAgentFitness d acc).fitness.accuracy : ℝ)) /
            ((updateAgentFitness d acc).fitness.evaluationCount : ℝ))) :=
  ⟨(findAgent_updateFitness archive id acc d hfind).1,
    (findAgent_updateFitness archive id acc d hfind).2,
    updateAgentFitness_count d acc, updateAgentFitness_accuracy d acc,
    updateAgentFitness_low d acc, updateAgentFitness_high d acc⟩

theorem updateFitness_ignores_retirement_witness :
    (findAgent [testRetired] "r1" = some testRetired ∧
      testRetired.enabled = false) ∧
    (findAgent (updateFitness [testRetired] "r1" (1 : ℚ)).1 "r1" =
        some (updateAgentFitness testRetired 1) ∧
      (updateFitness [testRetired] "r1" (1 : ℚ)).2 = true ∧
      (updateAgentFitness testRetired 1).fitness.evaluationCount =
        testRetired.fitness.evaluationCount + 1) :=
  ⟨⟨rfl, rfl⟩,
    (updateFitness_ignores_retirement [testRetired] "r1" testRetired 1 rfl).1,
    (updateFitness_ignores_retirement [testRetired] "r1" testRetired 1 rfl).2.1,
    (updateFitness_ignores_retirement [testRetired] "r1" testRetired 1 rfl).2.2.1⟩

theorem baselineArchive_ne_nil (now : String) : baselineArchive now ≠ [] := by
  intro hcontra
  have hlen : (baselineArchive now).length = 0 := by rw [hcontra]; rfl
  rw [baselineArchive, List.length_map, List.enum_length] at hlen
  simp [INITIAL_ARCHIVE] at hlen

/-- C3 counterexample: a persisted document that parses but has no
array-valued `agents` field does NOT reseed the baseline — `load` leaves
the archive empty (and does not persist), contradicting the claim that
every malformed document is healed by seeding the non-empty baseline
set. -/
theorem load_missing_shape_counterexample :
    (load (LoadInput.parsed none) "t").1 = [] ∧
      (load (LoadInput.parsed none) "t").2 = false ∧
      baselineArchive "t" ≠ [] :=
  ⟨rfl, rfl, baselineArchive_ne_nil "t"⟩

/-- C3 (amended): on an absent document or a `JSON.parse` failure, `load`
seeds the fixed baseline set and persists immediately, and the baseline
is non-empty; but a document that parses without an array-valued
`agents` field yields an empty in-memory archive with no reseeding and
no persist.  `load` is total (never raises). -/
theorem load_spec (now : String) (l : List AgentDesign) :
    load LoadInput.absent now = (baselineArchive now, true) ∧
      load LoadInput.corrupt now = (baselineArchive now, true) ∧
      load (LoadInput.parsed none) now = ([], false) ∧
      load (LoadInput.parsed (some l)) now = (l, false) ∧
      baselineArchive now ≠ [] :=
  ⟨rfl, rfl, rfl, rfl, baselineArchive_ne_nil now⟩

/-- The first design of the freshly seeded baseline archive: the
Chain-of-Thought baseline with id `baseline-0` and starting accuracy
0.5. -/
noncomputable def baseline0 (now : String) : AgentDesign :=
  { id := "baseline-0"
    name := chainOfThought.name
    thought := chainOfThought.thought
    code := chainOfThought.code
    generation := chainOfThought.generation
    fitness := chainOfThought.fitness
    createdAt := now
    enabled := true }

/-- C4 counterexample: starting from the freshly seeded baseline archive
and calling `updateFitness` on the 0.50 design four times with accuracy
0.1 each, the mean is exactly 0.1 — not approximately 0.18 as claimed
(the code's running average starts from `count 0`, so the seeded 0.5
never contributes). -/
theorem baseline_scenario_counterexample :
    ∃ d4, findAgent (applyUpdates (baselineArchive "t") "baseline-0"
        [0.1, 0.1, 0.1, 0.1]) "baseline-0" = some d4 ∧
      d4.fitness.accuracy = 1/10 ∧
      ¬(17/100 ≤ d4.fitness.accuracy ∧ d4.fitness.accuracy ≤ 19/100) := by
  refine ⟨applyAgentUpdates (baseline0 "t") [0.1, 0.1, 0.1, 0.1],
    findAgent_applyUpdates _ _ _ _ rfl, ?_, ?_⟩
  · rw [applyAgentUpdates_accuracy _ _ (by simp)]
    norm_num [baseline0, chainOfThought]
  · rw [applyAgentUpdates_accuracy _ _ (by simp)]
    norm_num [baseline0, chainOfThought]

/-- C4 (amended): from the freshly seeded baseline archive, four
`updateFitness` calls on the 0.50 design with accuracy 0.1 each leave
`count 4`, mean exactly 0.1 and the design still enabled; a fifth such
call leaves `count 5`, mean exactly 0.1, and the design disabled. -/
theorem baseline_scenario :
    ∃ d4 d5,
      findAgent (applyUpdates (baselineArchive "t") "baseline-0"
          [0.1, 0.1, 0.1, 0.1]) "baseline-0" = some d4 ∧
        d4.fitness.evaluationCount = 4 ∧ d4.fitness.accuracy = 1/10 ∧
        d4.enabled = true ∧
      findAgent (applyUpdates (baselineArchive "t") "baseline-0"
          [0.1, 0.1, 0.1, 0.1, 0.1]) "baseline-0" = some d5 ∧
        d5.fitness.evaluationCount = 5 ∧ d5.fitness.accuracy = 1/10 ∧
        d5.enabled = false := by
  refine ⟨applyAgentUpdates (baseline0 "t") [0.1, 0.1, 0.1, 0.1],
    applyAgentUpdates (baseline0 "t") [0.1, 0.1, 0.1, 0.1, 0.1],
    findAgent_applyUpdates _ _ _ _ rfl, rfl, ?_, ?_,
    findAgent_applyUpdates _ _ _ _ rfl, rfl, ?_, ?_⟩
  · rw [applyAgentUpdates_accuracy _ _ (by simp)]
    norm_num [baseline0, chainOfThought]
  · simp [applyAgentUpdates, updateAgentFitness_enabled,
      updateAgentFitness_accuracy, updateAgentFitness_count, baseline0,
      chainOfThought]
  · rw [applyAgentUpdates_accuracy _ _ (by simp)]
    norm_num [baseline0, chainOfThought]
  · simp [applyAgentUpdates, updateAgentFitness_enabled,
      updateAgentFitness_accuracy, updateAgentFitness_count, baseline0,
      chainOfThought]
    norm_num

/-- A candidate carrying a non-default fitness, as the `add` signature
permits. -/
noncomputable def testCandidate : Candidate where
  name := "Nonzero"
  thought := "A candidate that arrives with prior fitness."
  code := "async function forward(task, context) \x7b return 1; \x7d"
  generation := Generation.gen 1
  fitness := ⟨9/10, 0, 0, 7⟩

/-- C8 counterexample: `add` copies the candidate's fitness verbatim
rather than assigning the default `{mean 0, bounds 0, count 0}` — a
candidate carrying `evaluationCount 7` is stored with count 7, not 0. -/
theorem add_default_fitness_counterexample :
    ((add [] testCandidate 5 "now").1).fitness.evaluationCount = 7 ∧
      (7 : ℕ) ≠ 0 :=
  ⟨rfl, by decide⟩

/-- C8 (amended): the design stored by `add` gets the id
`gen-<generation>-<Date.now()>`, the candidate's own fields — fitness
included, so the default zeros hold exactly when the caller supplies
them, as `runGeneration` does — `enabled:true` and the current
timestamp; it is appended at the end, `getAll` immediately afterwards
includes it, and the archive is persisted before `add` returns. -/
theorem add_spec (archive : List AgentDesign) (c : Candidate)
    (nowMs : ℕ) (nowIso : String) :
    (add archive c nowMs nowIso).1.id =
        "gen-" ++ genToString c.generation ++ "-" ++ toString nowMs ∧
      (add archive c nowMs nowIso).1.name = c.name ∧
      (add archive c nowMs nowIso).1.thought = c.thought ∧
      (add archive c nowMs nowIso).1.code = c.code ∧
      (add archive c nowMs nowIso).1.generation = c.generation ∧
      (add archive c nowMs nowIso).1.fitness = c.fitness ∧
      (add archive c nowMs nowIso).1.createdAt = nowIso ∧
      (add archive c nowMs nowIso).1.enabled = true ∧
      (add archive c nowMs nowIso).2.1 =
        archive ++ [(add archive c nowMs nowIso).1] ∧
      (add archive c nowMs nowIso).2.2 = true ∧
      (add archive c nowMs nowIso).1 ∈ getAll (add archive c nowMs nowIso).2.1 :=
  ⟨rfl, rfl, rfl, rfl, rfl, rfl, rfl, rfl, rfl, rfl, by simp [add, getAll]⟩

/-- C9: persisting the archive (`save` writes `{agents: archive}`) and
loading the written document back from empty in-process state yields an
archive with the same designs — in particular the same ids and the same
fitness values (mean, bounds, count) — as the one persisted. -/
theorem save_load_roundtrip (archive : List AgentDesign) (now : String) :
    (load (parseSaved (saveDoc archive)) now).1 = archive ∧
      ((load (parseSaved (saveDoc archive)) now).1.map fun a => a.id) =
        archive.map (fun a => a.id) ∧
      ((load (parseSaved (saveDoc archive)) now).1.map fun a =>
          (a.fitness.accuracy, a.fitness.confidenceLow,
            a.fitness.confidenceHigh, a.fitness.evaluationCount)) =
        archive.map fun a =>
          (a.fitness.accuracy, a.fitness.confidenceLow,
            a.fitness.confidenceHigh, a.fitness.evaluationCount) :=
  ⟨rfl, rfl, rfl⟩

/-- C7: for every design whose observed accuracies all lie in `[0,1]`
(starting from `evaluationCount 0`), after every `updateFitness` run the
bounds satisfy `0 ≤ confidenceLow ≤ mean ≤ confidenceHigh ≤ 1`, and both
are recomputed from the final mean and count as `mean ∓ 1.96·stdErr`
clamped to `[0,1]`. -/
theorem confidence_bounds_invariant (archive : List AgentDesign)
    (id : String) (d : AgentDesign) (accs : List ℚ)
    (hfind : findAgent archive id = some d)
    (hcount : d.fitness.evaluationCount = 0)
    (hmem : ∀ x ∈ accs, 0 ≤ x ∧ x ≤ 1) (hne : accs ≠ []) :
    ∃ d', findAgent (applyUpdates archive id accs) id = some d' ∧
      (0 ≤ d'.fitness.confidenceLow ∧
        d'.fitness.confidenceLow ≤ (d'.fitness.accuracy : ℝ) ∧
        (d'.fitness.accuracy : ℝ) ≤ d'.fitness.confidenceHigh ∧
        d'.fitness.confidenceHigh ≤ 1) ∧
      d'.fitness.confidenceLow =
        max 0 ((d'.fitness.accuracy : ℝ) -
          1.96 * Real.sqrt ((d'.fitness.accuracy : ℝ) *
            (1 - (d'.fitness.accuracy : ℝ)) /
            (d'.fitness.evaluationCount : ℝ))) ∧
      d'.fitness.confidenceHigh =
        min 1 ((d'.fitness.accuracy : ℝ) +
          1.96 * Real.sqrt ((d'.fitness.accuracy : ℝ) *
            (1 - (d'.fitness.accuracy : ℝ)) /
            (d'.fitness.evaluationCount : ℝ))) :=
  ⟨applyAgentUpdates d accs, findAgent_applyUpdates archive id accs d hfind,
    applyAgentUpdates_bounds_chain d accs hcount hmem hne,
    (applyAgentUpdates_bounds_formula d accs hne).1,
    (applyAgentUpdates_bounds_formula d accs hne).2⟩

theorem confidence_bounds_invariant_witness :
    (findAgent [testAgent] "t1" = some testAgent ∧
      testAgent.fitness.evaluationCount = 0 ∧
      (∀ x ∈ [(1 : ℚ)], 0 ≤ x ∧ x ≤ 1) ∧ ([(1 : ℚ)] : List ℚ) ≠ []) ∧
    (∃ d', findAgent (applyUpdates [testAgent] "t1" [(1 : ℚ)]) "t1" =
        some d' ∧
      (0 ≤ d'.fitness.confidenceLow ∧
        d'.fitness.confidenceLow ≤ (d'.fitness.accuracy : ℝ) ∧
        (d'.fitness.accuracy : ℝ) ≤ d'.fitness.confidenceHigh ∧
        d'.fitness.confidenceHigh ≤ 1) ∧
      d'.fitness.confidenceLow =
        max 0 ((d'.fitness.accuracy : ℝ) -
          1.96 * Real.sqrt ((d'.fitness.accuracy : ℝ) *
            (1 - (d'.fitness.accuracy : ℝ)) /
            (d'.fitness.evaluationCount : ℝ))) ∧
      d'.fitness.confidenceHigh =
        min 1 ((d'.fitness.accuracy : ℝ) +
          1.96 * Real.sqrt ((d'.fitness.accuracy : ℝ) *
            (1 - (d'.fitness.accuracy : ℝ)) /
            (d'.fitness.evaluationCount : ℝ)))) :=
  ⟨⟨rfl, rfl, by norm_num, by simp⟩,
    confidence_bounds_invariant [testAgent] "t1" testAgent [1] rfl rfl
      (by norm_num) (by simp)⟩

/-- C6: in `runGeneration`, a failed initial oracle call returns nothing
and leaves the archive untouched; a failed refinement round is merely
skipped — the design from before the round is kept, later rounds still
apply, and the generation still succeeds with the final design appended
to the archive. -/
theorem runGeneration_error_handling (cfg : SearchConfig)
    (st : SearchState) (inp : GenInput) :
    (inp.initial = none →
      runGeneration cfg st inp =
        ({ st with generation := st.generation + 1 }, none)) ∧
    (∀ p, inp.initial = some p →
      runGeneration cfg st inp =
        (⟨st.generation + 1,
            st.archive ++ [generatedAgent cfg st inp p]⟩,
          some (generatedAgent cfg st inp p))) ∧
    (∀ p, refineFold p cfg.reflexionSteps inp.refine =
      ((List.range cfg.reflexionSteps).filterMap inp.refine).foldl
        (fun _ r => r) p) :=
  ⟨runGeneration_none cfg st inp,
    fun p hp => runGeneration_some cfg st inp p hp,
    fun p => refineFold_filterMap p cfg.reflexionSteps inp.refine⟩

def testConfig : SearchConfig where
  maxGenerations := 2
  evaluationsPerAgent := 5
  reflexionSteps := 2
  minFitnessThreshold := 0.3

def testState : SearchState := ⟨0, []⟩

def proposalA : Proposal := ⟨"A", "first attempt", "codeA"⟩

def proposalB : Proposal := ⟨"B", "refined attempt", "codeB"⟩

/-- A generation whose initial oracle call fails. -/
def testGenInputFail : GenInput := ⟨none, fun _ => none, 0, "t"⟩

/-- A generation whose initial call succeeds, whose first refinement
round succeeds with `proposalB` and whose second round fails. -/
def testGenInput : GenInput :=
  ⟨some proposalA, fun i => if i = 0 then some proposalB else none, 7, "ts"⟩

theorem runGeneration_error_handling_witness :
    (testGenInputFail.initial = none ∧
      runGeneration testConfig testState testGenInputFail =
        ({ testState with generation := testState.generation + 1 },
          none)) ∧
    (testGenInput.initial = some proposalA ∧
      runGeneration testConfig testState testGenInput =
        (⟨testState.generation + 1,
            testState.archive ++
              [generatedAgent testConfig testState testGenInput proposalA]⟩,
          some (generatedAgent testConfig testState testGenInput
            proposalA))) ∧
    refineFold proposalA testConfig.reflexionSteps testGenInput.refine =
      ((List.range testConfig.reflexionSteps).filterMap
        testGenInput.refine).foldl (fun _ r => r) proposalA ∧
    refineFold proposalA testConfig.reflexionSteps testGenInput.refine =
      proposalB :=
  ⟨⟨rfl, (runGeneration_error_handling testConfig testState
      testGenInputFail).1 rfl⟩,
    ⟨rfl, (runGeneration_error_handling testConfig testState
      testGenInput).2.1 proposalA rfl⟩,
    (runGeneration_error_handling testConfig testState testGenInput).2.2
      proposalA,
    rfl⟩

/-- C5: `runSearch` performs exactly `maxGenerations` iterations (the
generation counter advances by exactly that much); a generation whose
oracle call failed is skipped, adding nothing to archive or discovered
list; a generated design is discovered exactly when its evaluation
accuracy is at or above `minFitnessThreshold`; and if every generation
fails the result is the empty list with the archive unchanged. -/
theorem runSearch_budget (cfg : SearchConfig) (st : SearchState)
    (inputs : SearchInputs) :
    ((runSearch cfg st inputs).1.generation =
        st.generation + cfg.maxGenerations) ∧
    ((∀ i, i < cfg.maxGenerations → (inputs.gen i).initial = none) →
      runSearch cfg st inputs =
        ({ st with generation := st.generation + cfg.maxGenerations },
          [])) ∧
    (∀ st' ds i,
      ((inputs.gen i).initial = none →
        runSearchStep cfg inputs (st', ds) i =
          ({ st' with generation := st'.generation + 1 }, ds)) ∧
      (∀ p, (inputs.gen i).initial = some p →
        (runSearchStep cfg inputs (st', ds) i).2 =
          if cfg.minFitnessThreshold ≤ (inputs.evalRes i).accuracy
            then ds ++ [generatedAgent cfg st' (inputs.gen i) p]
            else ds)) := by
  refine ⟨?_, ?_, ?_⟩
  · have h := runSearch_foldl_generation cfg inputs
      (List.range cfg.maxGenerations) st []
    rw [List.length_range] at h
    exact h
  · intro h
    have := runSearch_foldl_allfail cfg inputs
      (List.range cfg.maxGenerations) st []
      fun i hi => h i (List.mem_range.mp hi)
    rw [List.length_range] at this
    exact this
  · intro st' ds i
    refine ⟨fun h => runSearchStep_none cfg inputs st' ds i h,
      fun p hp => ?_⟩
    rw [runSearchStep_some cfg inputs st' ds i p hp]

/-- Inputs whose every generation fails at the initial oracle call. -/
def testInputsFail : SearchInputs :=
  ⟨fun _ => testGenInputFail, fun _ => ⟨false, 0, [], 0⟩⟩

/-- Inputs whose every generation succeeds and evaluates to accuracy 1. -/
def testInputsOk : SearchInputs :=
  ⟨fun _ => testGenInput, fun _ => ⟨true, 1, [], 0⟩⟩

theorem runSearch_budget_witness :
    (runSearch testConfig testState testInputsFail).1.generation =
        testState.generation + testConfig.maxGenerations ∧
      runSearch testConfig testState testInputsFail =
        ({ testState with generation :=
            testState.generation + testConfig.maxGenerations }, []) ∧
      runSearchStep testConfig testInputsFail (testState, []) 0 =
        ({ testState with generation := testState.generation + 1 }, []) ∧
      (runSearchStep testConfig testInputsOk (testState, []) 0).2 =
        (if testConfig.minFitnessThreshold ≤
            (testInputsOk.evalRes 0).accuracy
          then [] ++ [generatedAgent testConfig testState
            (testInputsOk.gen 0) proposalA]
          else []) :=
  ⟨(runSearch_budget testConfig testState testInputsFail).1,
    (runSearch_budget testConfig testState testInputsFail).2.1
      fun _ _ => rfl,
    ((runSearch_budget testConfig testState testInputsFail).2.2
      testState [] 0).1 rfl,
    ((runSearch_budget testConfig testState testInputsOk).2.2
      testState [] 0).2 proposalA rfl⟩

end MetaAgentSearch
